/-
Verification of the poloniex client library (nikolskiy/poloniex).

The Lean definitions below are a shallow embedding of the Python sources:
  * poloniex/settings.py  — constants (field schema, urls, rate limit)
  * poloniex/px.py        — websocket ticker protocol (frame dispatch, decode)
  * poloniex/utils.py     — process-wide rate limiter
  * poloniex/api.py       — request signing (HMAC-SHA512 over urlencode) and
                            the public / trading call executors

Python dicts that are built and consumed in insertion order are embedded as
association lists; runtime exceptions are embedded as `Except`; wall-clock
time is an explicit rational parameter.
-/
import Mathlib

namespace Poloniex

/-! ### JSON values (wire format of the websocket frames) -/

/-- A decoded JSON value, as produced by `json.loads` for the ticker wire
format: integers, strings, null and (nested) arrays cover every frame the
protocol handles. -/
inductive JVal : Type where
  | null : JVal
  | num : Int → JVal
  | str : String → JVal
  | arr : List JVal → JVal

/-! ### settings.py -/

/-- `settings.ws_fields_in_order`: the documented 10-field positional schema
of a ticker payload. -/
def ws_fields_in_order : List String :=
  ["id", "last", "lowestAsk", "highestBid", "percentChange", "baseVolume",
   "quoteVolume", "isFrozen", "high24hr", "low24hr"]

/-- `settings.api_rate_limit`. -/
def api_rate_limit : ℚ := 5

/-- `settings.trading_url`. -/
def trading_url : String := "https://poloniex.com/tradingApi"

/-! ### px.py — TickerProtocol -/

/-- Result of `TickerProtocol.frame_received` on one frame: either the ticker
sink (`ticker_received`) is invoked with the decoded record, or a
subscribe/unsubscribe acknowledgement is logged, or the frame is silently
ignored. -/
inductive DispatchResult : Type where
  | tickerSink : List (String × JVal) → DispatchResult
  | subscribedAck : DispatchResult
  | unsubscribedAck : DispatchResult
  | ignored : DispatchResult

/-- `dict.get` on the id→name table: the record `id` value is an `int` key,
so only a numeric `JVal` can hit an entry. -/
def tableGet (t : List (Int × String)) : JVal → Option String
  | JVal.num n => t.lookup n
  | _ => none

/-- A `str`-or-`None` optional rendered back into a JSON value. -/
def optJVal : Option String → JVal
  | some s => JVal.str s
  | none => JVal.null

/-- `TickerProtocol.parse_ticker`: zip the positional payload with the field
schema (a payload longer than the schema raises IndexError); when the
id→name table is configured (truthy, i.e. non-empty) attach a `name` field
via `dict.get` on the record `id` (a record with no `id` key raises
KeyError). On success the record is handed to the ticker sink. -/
def parse_ticker (t : List (Int × String)) (data : List JVal) :
    Except String (List (String × JVal)) :=
  if ws_fields_in_order.length < data.length then Except.error "IndexError"
  else
    let frame := List.zip ws_fields_in_order data
    if t = [] then Except.ok frame
    else
      match frame.lookup "id" with
      | none => Except.error "KeyError"
      | some idv => Except.ok (frame ++ [("name", optJVal (tableGet t idv))])

/-- `TickerProtocol.frame_received`: dispatch one decoded frame. Element 0 is
the channel id; anything other than 1002 returns silently. For channel 1002,
element 1 `None` means a data frame (decode element 2 and invoke the sink),
`1`/`0` are subscribe/unsubscribe acknowledgements, and any other marker
falls through silently. Out-of-range indexing raises. -/
def frame_received (t : List (Int × String)) (frame : List JVal) :
    Except String DispatchResult :=
  match frame[0]? with
  | none => Except.error "IndexError"
  | some (JVal.num 1002) =>
    match frame[1]? with
    | none => Except.error "IndexError"
    | some JVal.null =>
      match frame[2]? with
      | none => Except.error "IndexError"
      | some (JVal.arr l) => (parse_ticker t l).map DispatchResult.tickerSink
      | some _ => Except.error "TypeError"
    | some (JVal.num 1) => Except.ok DispatchResult.subscribedAck
    | some (JVal.num 0) => Except.ok DispatchResult.unsubscribedAck
    | some _ => Except.ok DispatchResult.ignored
  | some _ => Except.ok DispatchResult.ignored

/-- The literal ticker data frame of the spec decoding example. -/
def exampleFrame : List JVal :=
  [JVal.num 1002, JVal.null, JVal.arr
    [JVal.num 7, JVal.str "0.05", JVal.str "0.051", JVal.str "0.049",
     JVal.str "0.01", JVal.str "120.5", JVal.str "2400.3", JVal.num 0,
     JVal.str "0.06", JVal.str "0.045"]]

/-- The named record the example frame should decode to. -/
def exampleRec : List (String × JVal) :=
  [("id", JVal.num 7), ("last", JVal.str "0.05"),
   ("lowestAsk", JVal.str "0.051"), ("highestBid", JVal.str "0.049"),
   ("percentChange", JVal.str "0.01"), ("baseVolume", JVal.str "120.5"),
   ("quoteVolume", JVal.str "2400.3"), ("isFrozen", JVal.num 0),
   ("high24hr", JVal.str "0.06"), ("low24hr", JVal.str "0.045")]

/-! ### Theorems about the ticker protocol -/

/-- C5: the literal ticker frame decodes to the documented named record; when
an id→name table is configured the decoder attaches a `name` field resolved
from the record id via `dict.get`, and an id absent from the table yields a
null name rather than an error. -/
theorem ticker_decode_example (t : List (Int × String)) (ht : t ≠ []) :
    frame_received [] exampleFrame = Except.ok (DispatchResult.tickerSink exampleRec)
    ∧ frame_received t exampleFrame =
        Except.ok (DispatchResult.tickerSink (exampleRec ++ [("name", optJVal (t.lookup 7))]))
    ∧ (t.lookup 7 = none →
        frame_received t exampleFrame =
          Except.ok (DispatchResult.tickerSink (exampleRec ++ [("name", JVal.null)]))) := by
  refine ⟨rfl, ?_, ?_⟩
  · simp [frame_received, parse_ticker, exampleFrame, exampleRec, ht, tableGet,
      ws_fields_in_order, Except.map]
  · intro habs
    simp [frame_received, parse_ticker, exampleFrame, exampleRec, ht, tableGet,
      ws_fields_in_order, habs, optJVal, Except.map]

/-- C5 witness: a concrete table that does not contain id 7. -/
theorem ticker_decode_example_witness :
    frame_received [] exampleFrame = Except.ok (DispatchResult.tickerSink exampleRec)
    ∧ frame_received [(3, "BTC_ETH")] exampleFrame =
        Except.ok (DispatchResult.tickerSink
          (exampleRec ++ [("name", optJVal (([(3, "BTC_ETH")] : List (Int × String)).lookup 7))]))
    ∧ (([(3, "BTC_ETH")] : List (Int × String)).lookup 7 = none →
        frame_received [(3, "BTC_ETH")] exampleFrame =
          Except.ok (DispatchResult.tickerSink (exampleRec ++ [("name", JVal.null)]))) :=
  ticker_decode_example [(3, "BTC_ETH")] (by decide)

/-- C6: the dispatcher invokes the ticker sink exactly when element 0 is the
channel id 1002 and element 1 is null (sufficiency shown for a well-formed
payload with no table configured); `[1002, 1]` yields the
subscribe-acknowledgement and no sink invocation; an unrecognized channel
such as `[9999, "x"]` is dropped silently with no error. -/
theorem dispatcher_channel_routing (t : List (Int × String)) (f : List JVal)
    (l : List JVal) (h0 : f[0]? = some (JVal.num 1002)) (h1 : f[1]? = some JVal.null)
    (h2 : f[2]? = some (JVal.arr l)) (hl : l.length ≤ 10) :
    (∃ r, frame_received [] f = Except.ok (DispatchResult.tickerSink r))
    ∧ (∀ u g r, frame_received u g = Except.ok (DispatchResult.tickerSink r) →
        g[0]? = some (JVal.num 1002) ∧ g[1]? = some JVal.null)
    ∧ frame_received t [JVal.num 1002, JVal.num 1] = Except.ok DispatchResult.subscribedAck
    ∧ frame_received t [JVal.num 9999, JVal.str "x"] = Except.ok DispatchResult.ignored := by
  refine ⟨?_, ?_, rfl, rfl⟩
  · refine ⟨List.zip ws_fields_in_order l, ?_⟩
    have hlen : ¬ ws_fields_in_order.length < l.length := by
      simp only [ws_fields_in_order, List.length_cons, List.length_nil]
      omega
    simp [frame_received, h0, h1, h2, parse_ticker, hlen, Except.map]
  · intro u g r h
    unfold frame_received at h
    split at h
    · exact absurd h (by simp)
    · rename_i heq0
      refine ⟨heq0, ?_⟩
      split at h
      · exact absurd h (by simp)
      · rename_i heq1; exact heq1
      · exact absurd h (by simp)
      · exact absurd h (by simp)
      · exact absurd h (by simp)
    · exact absurd h (by simp)

/-- C6 witness: instantiated at the literal example frame and its payload. -/
theorem dispatcher_channel_routing_witness :
    (∃ r, frame_received [] exampleFrame = Except.ok (DispatchResult.tickerSink r))
    ∧ (∀ u g r, frame_received u g = Except.ok (DispatchResult.tickerSink r) →
        g[0]? = some (JVal.num 1002) ∧ g[1]? = some JVal.null)
    ∧ frame_received [] [JVal.num 1002, JVal.num 1] = Except.ok DispatchResult.subscribedAck
    ∧ frame_received [] [JVal.num 9999, JVal.str "x"] = Except.ok DispatchResult.ignored :=
  dispatcher_channel_routing [] exampleFrame
    [JVal.num 7, JVal.str "0.05", JVal.str "0.051", JVal.str "0.049",
     JVal.str "0.01", JVal.str "120.5", JVal.str "2400.3", JVal.num 0,
     JVal.str "0.06", JVal.str "0.045"]
    (by rfl) (by rfl) (by rfl) (by decide)

/-! ### utils.py — rate_limited

`rate_limited(max_per_second)` wraps a function with a shared lock, a stored
`last_time_called` clock reading and a minimum interval `1/max_per_second`.
The lock serializes the callers, so a run of the limiter is a sequence of
calls processed one after the other; each call is described by the clock
reading taken right after the lock is acquired and by how long the wrapped
function runs.  Time is modelled by the exact rationals. -/

/-- One serialized call through `rate_limited`: `acquire` is the
`time.perf_counter()` reading taken while holding the lock, `duration` how
long the wrapped function runs. -/
structure LimitedCall where
  acquire : ℚ
  duration : ℚ

/-- The body of `rate_limited_function` for one call: compute the elapsed
time since `last_time_called`, sleep out any remainder of the minimum
interval, run the function, then store the fresh clock reading.  Returns the
time the wrapped function begins executing and the new `last_time_called`
(taken after the function returned). -/
def rate_limited_step (minInterval lastTimeCalled : ℚ) (c : LimitedCall) : ℚ × ℚ :=
  let elapsed := c.acquire - lastTimeCalled
  let leftToWait := minInterval - elapsed
  let beginTime := if 0 < leftToWait then c.acquire + leftToWait else c.acquire
  (beginTime, beginTime + c.duration)

/-- The begin-execution times of a serialized sequence of calls through the
limiter, starting from stored reading `last`. -/
def beginTimes (minInterval last : ℚ) : List LimitedCall → List ℚ
  | [] => []
  | c :: cs =>
    let s := rate_limited_step minInterval last c
    s.1 :: beginTimes minInterval s.2 cs

/-- Side conditions the lock and a monotone clock impose on a serialized run:
each caller clock reading is not earlier than the stored
`last_time_called` it observes, and wrapped functions take nonnegative
time. -/
def serializedFrom (minInterval last : ℚ) : List LimitedCall → Bool
  | [] => true
  | c :: cs =>
    decide (last ≤ c.acquire) && decide (0 ≤ c.duration) &&
      serializedFrom minInterval (rate_limited_step minInterval last c).2 cs

theorem rate_limited_step_begin_ge (minInterval last : ℚ) (c : LimitedCall) :
    last + minInterval ≤ (rate_limited_step minInterval last c).1 := by
  unfold rate_limited_step
  dsimp only
  split
  · linarith
  · rename_i hw
    rw [not_lt] at hw
    linarith

theorem rate_limited_step_acquire_le (minInterval last : ℚ) (c : LimitedCall) :
    c.acquire ≤ (rate_limited_step minInterval last c).1 := by
  unfold rate_limited_step
  dsimp only
  split
  · linarith
  · exact le_refl _

theorem beginTimes_all_ge (minInterval : ℚ) (hm : 0 ≤ minInterval) :
    ∀ (cs : List LimitedCall) (last : ℚ),
      serializedFrom minInterval last cs = true →
      ∀ b ∈ beginTimes minInterval last cs, last + minInterval ≤ b := by
  intro cs
  induction cs with
  | nil => intro last _ b hb; simp [beginTimes] at hb
  | cons c cs ih =>
    intro last h b hb
    simp only [serializedFrom, Bool.and_eq_true, decide_eq_true_eq] at h
    obtain ⟨⟨hacq, hdur⟩, hrest⟩ := h
    simp only [beginTimes, List.mem_cons] at hb
    rcases hb with hb | hb
    · subst hb; exact rate_limited_step_begin_ge minInterval last c
    · have hb2 := ih (rate_limited_step minInterval last c).2 hrest b hb
      have h1 := rate_limited_step_begin_ge minInterval last c
      have h2 : (rate_limited_step minInterval last c).2
          = (rate_limited_step minInterval last c).1 + c.duration := rfl
      rw [h2] at hb2
      linarith

/-- C3: in a serialized run of the limiter configured at rate `R` calls per
second, any two distinct calls begin executing at least `1/R` seconds apart
(stated as pairwise separation of the begin times, in order); every call in
the run gets a begin time, i.e. an early arrival waits and never fails. -/
theorem rate_limited_min_interval (R : ℚ) (hR : 0 < R) (last0 : ℚ)
    (cs : List LimitedCall) (h : serializedFrom (1/R) last0 cs = true) :
    (beginTimes (1/R) last0 cs).Pairwise (fun a b => a + 1/R ≤ b)
    ∧ (beginTimes (1/R) last0 cs).length = cs.length := by
  have hm : 0 ≤ 1/R := by positivity
  constructor
  · induction cs generalizing last0 with
    | nil => simp [beginTimes]
    | cons c cs ih =>
      simp only [serializedFrom, Bool.and_eq_true, decide_eq_true_eq] at h
      obtain ⟨⟨hacq, hdur⟩, hrest⟩ := h
      simp only [beginTimes, List.pairwise_cons]
      refine ⟨?_, ih _ hrest⟩
      intro b hb
      have hb2 := beginTimes_all_ge (1/R) hm cs (rate_limited_step (1/R) last0 c).2 hrest b hb
      have h2 : (rate_limited_step (1/R) last0 c).2
          = (rate_limited_step (1/R) last0 c).1 + c.duration := rfl
      rw [h2] at hb2
      linarith
  · induction cs generalizing last0 with
    | nil => rfl
    | cons c cs ih =>
      simp only [serializedFrom, Bool.and_eq_true, decide_eq_true_eq] at h
      simp only [beginTimes, List.length_cons]
      rw [ih _ h.2]

/-- C3 witness: two back-to-back calls at the configured rate of 5 calls per
second. -/
theorem rate_limited_min_interval_witness :
    (beginTimes (1/api_rate_limit) 0 [⟨0, 0⟩, ⟨1/5, 0⟩]).Pairwise
      (fun a b => a + 1/api_rate_limit ≤ b)
    ∧ (beginTimes (1/api_rate_limit) 0 [⟨0, 0⟩, ⟨1/5, 0⟩]).length =
        ([⟨0, 0⟩, ⟨1/5, 0⟩] : List LimitedCall).length :=
  rate_limited_min_interval api_rate_limit (by norm_num [api_rate_limit]) 0
    [⟨0, 0⟩, ⟨1/5, 0⟩]
    (by norm_num [serializedFrom, rate_limited_step, api_rate_limit])

/-! ### Byte-level primitives: UTF-8, percent-encoding, hex digests

Bytes are naturals below 256; 64-bit machine words are naturals reduced
modulo `2 ^ 64` wherever overflow matters. -/

/-- UTF-8 encoding of one character (by code point ranges). -/
def utf8Char (c : Char) : List ℕ :=
  let n := c.toNat
  if n < 0x80 then [n]
  else if n < 0x800 then [0xC0 + n / 64, 0x80 + n % 64]
  else if n < 0x10000 then [0xE0 + n / 4096, 0x80 + n / 64 % 64, 0x80 + n % 64]
  else [0xF0 + n / 262144, 0x80 + n / 4096 % 64, 0x80 + n / 64 % 64, 0x80 + n % 64]

/-- `str.encode(utf-8)`. -/
def utf8Encode (s : String) : List ℕ := s.data.flatMap utf8Char

/-- Lowercase hex digit. -/
def hexChar (n : ℕ) : Char := if n < 10 then Char.ofNat (48 + n) else Char.ofNat (87 + n)

/-- Uppercase hex digit (as used by percent-encoding). -/
def hexCharUpper (n : ℕ) : Char := if n < 10 then Char.ofNat (48 + n) else Char.ofNat (55 + n)

/-- `hexdigest()`: lowercase hex rendering of a byte string. -/
def hexdigest (l : List ℕ) : String :=
  String.mk (l.flatMap fun b => [hexChar (b / 16), hexChar (b % 16)])

/-- The bytes `urllib.parse.quote_plus` leaves unescaped (letters, digits,
`_`, `.`, `-`, `~`). -/
def safeByte (b : ℕ) : Bool :=
  (65 ≤ b && b ≤ 90) || (97 ≤ b && b ≤ 122) || (48 ≤ b && b ≤ 57) ||
    b == 95 || b == 46 || b == 45 || b == 126

/-- `urllib.parse.quote_plus` with empty `safe`: UTF-8 encode, keep safe
bytes, turn spaces into `+` and percent-encode everything else in uppercase
hex. -/
def quote_plus (s : String) : String :=
  String.mk ((utf8Encode s).flatMap fun b =>
    if safeByte b then [Char.ofNat b]
    else if b = 32 then [Char.ofNat 43]
    else [Char.ofNat 37, hexCharUpper (b / 16), hexCharUpper (b % 16)])

/-- A parameter value of an API call: the endpoint wrappers pass strings and
integers. `str()` of an integer is its decimal rendering. -/
inductive PVal : Type where
  | s : String → PVal
  | i : Int → PVal

/-- `str(value)` as applied by `urlencode` to each parameter value. -/
def PVal.asStr : PVal → String
  | PVal.s v => v
  | PVal.i v => toString v

/-- `urllib.parse.urlencode`: quote each key and value and join as a query
string, in the mapping iteration (insertion) order. -/
def urlencode (data : List (String × PVal)) : String :=
  String.intercalate "&" (data.map fun kv => quote_plus kv.1 ++ "=" ++ quote_plus kv.2.asStr)

/-! ### SHA-512 (FIPS 180-4) and HMAC (RFC 2104), as used via hashlib/hmac -/

/-- Addition modulo `2 ^ 64`. -/
def add64 (a b : ℕ) : ℕ := (a + b) % 2 ^ 64

/-- Right rotation of a 64-bit word. -/
def rotr64 (n x : ℕ) : ℕ := ((x >>> n) ||| (x <<< (64 - n))) % 2 ^ 64

/-- Bitwise complement of a 64-bit word. -/
def not64 (x : ℕ) : ℕ := x ^^^ (2 ^ 64 - 1)

/-- SHA-512 `Ch` function. -/
def ch64 (x y z : ℕ) : ℕ := (x &&& y) ^^^ (not64 x &&& z)

/-- SHA-512 `Maj` function. -/
def maj64 (x y z : ℕ) : ℕ := (x &&& y) ^^^ (x &&& z) ^^^ (y &&& z)

/-- SHA-512 big sigma 0. -/
def bsig0 (x : ℕ) : ℕ := rotr64 28 x ^^^ rotr64 34 x ^^^ rotr64 39 x

/-- SHA-512 big sigma 1. -/
def bsig1 (x : ℕ) : ℕ := rotr64 14 x ^^^ rotr64 18 x ^^^ rotr64 41 x

/-- SHA-512 small sigma 0. -/
def ssig0 (x : ℕ) : ℕ := rotr64 1 x ^^^ rotr64 8 x ^^^ (x >>> 7)

/-- SHA-512 small sigma 1. -/
def ssig1 (x : ℕ) : ℕ := rotr64 19 x ^^^ rotr64 61 x ^^^ (x >>> 6)

/-- The 80 SHA-512 round constants of FIPS 180-4 (the fractional parts of
the cube roots of the first 80 primes), in decimal. -/
def sha512K : List ℕ :=
  [4794697086780616226, 8158064640168781261, 13096744586834688815,
   16840607885511220156, 4131703408338449720, 6480981068601479193,
   10538285296894168987, 12329834152419229976, 15566598209576043074,
   1334009975649890238, 2608012711638119052, 6128411473006802146,
   8268148722764581231, 9286055187155687089, 11230858885718282805,
   13951009754708518548, 16472876342353939154, 17275323862435702243,
   1135362057144423861, 2597628984639134821, 3308224258029322869,
   5365058923640841347, 6679025012923562964, 8573033837759648693,
   10970295158949994411, 12119686244451234320, 12683024718118986047,
   13788192230050041572, 14330467153632333762, 15395433587784984357,
   489312712824947311, 1452737877330783856, 2861767655752347644,
   3322285676063803686, 5560940570517711597, 5996557281743188959,
   7280758554555802590, 8532644243296465576, 9350256976987008742,
   10552545826968843579, 11727347734174303076, 12113106623233404929,
   14000437183269869457, 14369950271660146224, 15101387698204529176,
   15463397548674623760, 17586052441742319658, 1182934255886127544,
   1847814050463011016, 2177327727835720531, 2830643537854262169,
   3796741975233480872, 4115178125766777443, 5681478168544905931,
   6601373596472566643, 7507060721942968483, 8399075790359081724,
   8693463985226723168, 9568029438360202098, 10144078919501101548,
   10430055236837252648, 11840083180663258601, 13761210420658862357,
   14299343276471374635, 14566680578165727644, 15097957966210449927,
   16922976911328602910, 17689382322260857208, 500013540394364858,
   748580250866718886, 1242879168328830382, 1977374033974150939,
   2944078676154940804, 3659926193048069267, 4368137639120453308,
   4836135668995329356, 5532061633213252278, 6448918945643986474,
   6902733635092675308, 7801388544844847127]

/-- The SHA-512 initial hash value of FIPS 180-4 (the fractional parts of
the square roots of the first 8 primes), in decimal. -/
def sha512H0 : List ℕ :=
  [7640891576956012808, 13503953896175478587, 4354685564936845355,
   11912009170470909681, 5840696475078001361, 11170449401992604703,
   2270897969802886507, 6620516959819538809]

/-- Big-endian byte rendering of a natural into `k` bytes. -/
def toBytesBE (k n : ℕ) : List ℕ := (List.range k).reverse.map fun i => (n >>> (8 * i)) % 256

/-- SHA-512 padding: append `0x80`, zero bytes up to 112 mod 128, then the
bit length as a 16-byte big-endian integer. -/
def sha512Pad (msg : List ℕ) : List ℕ :=
  let l := msg.length
  let padLen := (112 + 128 - (l + 1) % 128) % 128
  msg ++ [0x80] ++ List.replicate padLen 0 ++ toBytesBE 16 (8 * l)

/-- The `i`-th 64-bit big-endian word of a 128-byte block. -/
def blockWord (block : List ℕ) (i : ℕ) : ℕ :=
  (List.range 8).foldl (fun acc j => acc * 256 + block.getD (8 * i + j) 0) 0

/-- The 80-entry SHA-512 message schedule of one block. -/
def msgSchedule (block : List ℕ) : Array ℕ :=
  (List.range 64).foldl
    (fun w _ =>
      w.push (add64
        (add64 (ssig1 (w.getD (w.size - 2) 0)) (w.getD (w.size - 7) 0))
        (add64 (ssig0 (w.getD (w.size - 15) 0)) (w.getD (w.size - 16) 0))))
    ((List.range 16).map (blockWord block)).toArray

/-- The eight 64-bit working variables of the SHA-512 compression loop. -/
structure Sha512State where
  a : ℕ
  b : ℕ
  c : ℕ
  d : ℕ
  e : ℕ
  f : ℕ
  g : ℕ
  h : ℕ

/-- One SHA-512 compression round on the working variables. -/
def sha512Round (s : Sha512State) (kw : ℕ × ℕ) : Sha512State :=
  let t1 := add64 s.h (add64 (bsig1 s.e) (add64 (ch64 s.e s.f s.g) (add64 kw.1 kw.2)))
  let t2 := add64 (bsig0 s.a) (maj64 s.a s.b s.c)
  ⟨add64 t1 t2, s.a, s.b, s.c, add64 s.d t1, s.e, s.f, s.g⟩

/-- SHA-512 compression of one 128-byte block into the running hash. -/
def sha512Compress (hv : List ℕ) (block : List ℕ) : List ℕ :=
  let w := (msgSchedule block).toList
  let s0 : Sha512State :=
    ⟨hv.getD 0 0, hv.getD 1 0, hv.getD 2 0, hv.getD 3 0,
     hv.getD 4 0, hv.getD 5 0, hv.getD 6 0, hv.getD 7 0⟩
  let s := (List.zip sha512K w).foldl sha512Round s0
  [add64 s0.a s.a, add64 s0.b s.b, add64 s0.c s.c, add64 s0.d s.d,
   add64 s0.e s.e, add64 s0.f s.f, add64 s0.g s.g, add64 s0.h s.h]

/-- Split a padded message into 128-byte blocks. -/
def chunks128 (l : List ℕ) : List (List ℕ) :=
  if h : l = [] then [] else l.take 128 :: chunks128 (l.drop 128)
termination_by l.length
decreasing_by
  simp only [List.length_drop]
  exact Nat.sub_lt (List.length_pos.mpr h) (by norm_num)

/-- `hashlib.sha512(msg).digest()`: the 64-byte SHA-512 digest. -/
def sha512 (msg : List ℕ) : List ℕ :=
  ((chunks128 (sha512Pad msg)).foldl sha512Compress sha512H0).flatMap (toBytesBE 8)

/-- `hmac.new(key, msg, hashlib.sha512).digest()`: HMAC with a 128-byte
block size; a longer key is first hashed, then zero-padded. -/
def hmac_sha512 (key msg : List ℕ) : List ℕ :=
  let k0 := if 128 < key.length then sha512 key else key
  let kp := k0 ++ List.replicate (128 - k0.length) 0
  sha512 ((kp.map fun b => b ^^^ 0x5c) ++ sha512 ((kp.map fun b => b ^^^ 0x36) ++ msg))

/-! ### api.py — sign -/

/-- `api.sign`: hex HMAC-SHA512 of the urlencoded parameter mapping, keyed by
the UTF-8 bytes of the secret. -/
def sign (secret : String) (data : List (String × PVal)) : String :=
  hexdigest (hmac_sha512 (utf8Encode secret) (utf8Encode (urlencode data)))

/-- C1: for every secret and ordered parameter mapping, `sign` returns the
hexadecimal HMAC-SHA512 digest of the canonical query-string (urlencode)
encoding of the mapping keyed by the secret, and signing is deterministic:
two invocations on the same arguments agree. -/
theorem sign_is_hex_hmac_sha512_and_deterministic
    (secret : String) (data : List (String × PVal)) :
    sign secret data =
      hexdigest (hmac_sha512 (utf8Encode secret) (utf8Encode (urlencode data)))
    ∧ sign secret data = sign secret data :=
  ⟨rfl, rfl⟩

/-! ### api.py — the Poloniex client -/

/-- Exceptions raised by the client: `PoloniexError` and its subclass
`SecretKeyError`. -/
inductive PxErr : Type where
  | poloniexError : String → PxErr
  | secretKeyError : String → PxErr

/-- The mutable credential attributes of a `Poloniex` client (`px_key`,
`px_secret`, defaulting to a falsy value, here the empty string) and the
`rate_limit` flag. -/
structure Client where
  px_key : String
  px_secret : String
  rate_limit : Bool

/-- The external credential source: the decoded `secret.json`, with
`data.get(key)` and `data.get(secret)`. -/
structure SecretFile where
  key : Option String
  secret : Option String

/-- `Poloniex._check_secrets`: keep the client credentials when both are
truthy; otherwise read the json file and fail with `SecretKeyError` when its
`key` or `secret` entry is missing or empty (`if not key` / `if not secret`);
on success the loaded pair becomes the client credentials. -/
def check_secrets (c : Client) (f : SecretFile) : Except PxErr (String × String) :=
  if c.px_key ≠ "" ∧ c.px_secret ≠ "" then Except.ok (c.px_key, c.px_secret)
  else if f.key.getD "" = "" then
    Except.error (PxErr.secretKeyError "poloniex secrets module is missing key value")
  else if f.secret.getD "" = "" then
    Except.error (PxErr.secretKeyError "poloniex secrets module is missing secret value")
  else Except.ok (f.key.getD "", f.secret.getD "")

/-- `int(q)`: Python truncation toward zero. -/
def pyInt (q : ℚ) : ℤ := if 0 ≤ q then Int.floor q else Int.ceil q

/-- The nonce injected by `_trading_api` when the wall clock reads `t`
seconds: `int(time() * 1000)`. -/
def nonceAt (t : ℚ) : ℤ := pyInt (t * 1000)

/-- `kwargs[nonce] = value` on an insertion-ordered dict: replace in place
when the key exists, else append. -/
def setItem (l : List (String × PVal)) (k : String) (v : PVal) : List (String × PVal) :=
  if l.any (fun p => p.1 == k) then l.map (fun p => if p.1 = k then (k, v) else p)
  else l ++ [(k, v)]

/-- The POST request assembled by `_trading_api`: url, headers (`Sign`,
`Key`) and the parameter mapping transmitted as the body. -/
structure TradingRequest where
  url : String
  headers : List (String × String)
  data : List (String × PVal)

/-- The observable steps of `_trading_api`, in program order. -/
inductive Action : Type where
  | checkSecretsStep : Action
  | injectNonceStep : Action
  | signStep : Action
  | rateLimitStep : Action
  | postStep : Action

/-- `Poloniex._trading_api` at wall-clock reading `t`, with the HTTP layer
abstracted as `postFn` (returning the decoded JSON body): check credentials,
inject the nonce into the mapping, sign that same mapping, block on the rate
limiter (when the flag is set), POST the mapping with the signature headers
and return the decoded response verbatim, together with the ordered step
trace. -/
def trading_api {J : Type} (c : Client) (f : SecretFile) (t : ℚ)
    (postFn : TradingRequest → J) (kwargs : List (String × PVal)) :
    Except PxErr (List Action × TradingRequest × J) :=
  match check_secrets c f with
  | Except.error e => Except.error e
  | Except.ok (key, secret) =>
    let kwargs2 := setItem kwargs "nonce" (PVal.i (nonceAt t))
    let req : TradingRequest :=
      { url := trading_url,
        headers := [("Sign", sign secret kwargs2), ("Key", key)],
        data := kwargs2 }
    Except.ok
      ([Action.checkSecretsStep, Action.injectNonceStep, Action.signStep] ++
        (if c.rate_limit then [Action.rateLimitStep] else []) ++ [Action.postStep],
       req, postFn req)

/-- `str.upper()`. -/
def pyUpper (s : String) : String := s.toUpper

/-- `DAY` from api.py: `MINUTE * 60 * 24`. -/
def DAY : ℤ := 60 * 60 * 24

/-- The admissible candlestick periods of `chart_data`. -/
def allowed_periods : List ℤ := [300, 900, 1800, 7200, 14400, 86400]

/-- `Poloniex.chart_data` at wall-clock reading `now`, with the public GET
layer abstracted as `getFn` applied to the parameter mapping handed to
`_public_api`: an invalid period raises `PoloniexError` before anything
else; otherwise the request carries `command`, the uppercased pair and the
defaulted time range. -/
def chart_data {J : Type} (getFn : List (String × PVal) → J)
    (pair : String) (start endT period : ℤ) (now : ℤ) : Except PxErr J :=
  if period ∉ allowed_periods then
    Except.error (PxErr.poloniexError (toString period ++ " invalid candle period"))
  else
    Except.ok (getFn
      [("command", PVal.s "returnChartData"),
       ("currencyPair", PVal.s (pyUpper pair)),
       ("start", PVal.i (if 0 < start then start else now - DAY)),
       ("end", PVal.i (if 0 < endT then endT else now))])

/-- `Poloniex.trade_history`: the `kwargs` mapping it hands to
`_trading_api` (besides `command=returnTradeHistory`): an over-large limit
collapses to 500, a positive limit is sent, a non-positive one omitted;
`start` is sent when positive; `end` only when positive and after
`start`. -/
def trade_history (pair : String) (start endT limit : ℤ) : List (String × PVal) :=
  let limit2 := if 10000 < limit then 500 else limit
  let kwargs := [("currencyPair", PVal.s (pyUpper pair))]
  let kwargs2 := if 0 < limit2 then kwargs ++ [("limit", PVal.i limit2)] else kwargs
  let kwargs3 := if 0 < start then kwargs2 ++ [("start", PVal.i start)] else kwargs2
  let kwargs4 := if 0 < endT ∧ start < endT then kwargs3 ++ [("end", PVal.i endT)] else kwargs3
  kwargs4

/-! ### Helper lemmas -/

theorem lookup_map_setItem (k : String) (v : PVal) :
    ∀ l : List (String × PVal),
      (l.map (fun p => if p.1 = k then (k, v) else p)).lookup k =
        (if l.any (fun p => p.1 == k) then some v else none)
  | [] => rfl
  | (p1, p2) :: l => by
    by_cases hp : p1 = k
    · subst hp
      simp only [List.map_cons, List.any_cons]
      simp [List.lookup]
    · have h3 : (p1 == k) = false := beq_eq_false_iff_ne.mpr hp
      have h2 : (k == p1) = false := beq_eq_false_iff_ne.mpr (Ne.symm hp)
      simp only [List.map_cons, List.any_cons, h3, Bool.false_or]
      rw [if_neg hp]
      simp only [List.lookup, h2]
      exact lookup_map_setItem k v l

theorem lookup_append_single (k : String) (v : PVal) :
    ∀ l : List (String × PVal), l.any (fun p => p.1 == k) = false →
      (l ++ [(k, v)]).lookup k = some v
  | [] => fun _ => by simp [List.lookup]
  | (p1, p2) :: l => fun h => by
    simp only [List.any_cons, Bool.or_eq_false_iff] at h
    have h2 : (k == p1) = false :=
      beq_eq_false_iff_ne.mpr (Ne.symm (beq_eq_false_iff_ne.mp h.1))
    simp only [List.cons_append, List.lookup, h2]
    exact lookup_append_single k v l h.2

/-- `dict.__setitem__` followed by lookup of the same key finds the new
value (whether the key was replaced in place or appended). -/
theorem setItem_lookup (l : List (String × PVal)) (k : String) (v : PVal) :
    (setItem l k v).lookup k = some v := by
  unfold setItem
  split
  · rename_i hany
    rw [lookup_map_setItem, if_pos hany]
  · rename_i hany
    exact lookup_append_single k v l (Bool.eq_false_iff.mpr hany)

/-- `int()` truncation toward zero is monotone. -/
theorem pyInt_mono {a b : ℚ} (h : a ≤ b) : pyInt a ≤ pyInt b := by
  unfold pyInt
  split
  · split
    · exact Int.floor_le_floor h
    · linarith [not_le.mp (by assumption : ¬ (0:ℚ) ≤ b), (by assumption : (0:ℚ) ≤ a)]
  · split
    · rename_i ha hb
      calc Int.ceil a ≤ 0 := Int.ceil_le.mpr (by exact_mod_cast le_of_lt (not_le.mp ha))
        _ ≤ Int.floor b := Int.floor_nonneg.mpr hb
    · exact Int.ceil_le_ceil h

/-! ### Theorems about the client -/

/-- C2: with credentials present, the trading executor performs, in order,
the credential check, nonce injection, signing, rate-limiter acquisition and
the HTTP POST; the transmitted body is exactly the nonce-extended mapping
that was signed, the headers carry its signature and the key identifier, and
the decoded response of the POST is returned verbatim. -/
theorem trading_api_executes_signed_post {J : Type} (c : Client) (f : SecretFile)
    (t : ℚ) (postFn : TradingRequest → J) (kwargs : List (String × PVal))
    (hk : c.px_key ≠ "") (hs : c.px_secret ≠ "") :
    ∃ req : TradingRequest,
      trading_api c f t postFn kwargs =
        Except.ok
          ([Action.checkSecretsStep, Action.injectNonceStep, Action.signStep] ++
            (if c.rate_limit then [Action.rateLimitStep] else []) ++ [Action.postStep],
           req, postFn req)
      ∧ req.data = setItem kwargs "nonce" (PVal.i (nonceAt t))
      ∧ req.headers = [("Sign", sign c.px_secret req.data), ("Key", c.px_key)]
      ∧ req.url = trading_url := by
  unfold trading_api check_secrets
  rw [if_pos ⟨hk, hs⟩]
  exact ⟨_, rfl, rfl, rfl, rfl⟩

/-- C2 witness: a concrete client with credentials set. -/
theorem trading_api_executes_signed_post_witness :
    ∃ req : TradingRequest,
      trading_api (J := List (String × PVal)) ⟨"apikey", "apisecret", true⟩ ⟨none, none⟩ 0
          (fun r => r.data) [("command", PVal.s "returnBalances")] =
        Except.ok
          ([Action.checkSecretsStep, Action.injectNonceStep, Action.signStep] ++
            (if (true : Bool) then [Action.rateLimitStep] else []) ++ [Action.postStep],
           req, req.data)
      ∧ req.data = setItem [("command", PVal.s "returnBalances")] "nonce" (PVal.i (nonceAt 0))
      ∧ req.headers = [("Sign", sign "apisecret" req.data), ("Key", "apikey")]
      ∧ req.url = trading_url :=
  trading_api_executes_signed_post ⟨"apikey", "apisecret", true⟩ ⟨none, none⟩ 0
    (fun r => r.data) [("command", PVal.s "returnBalances")]
    (by decide) (by decide)

/-- C4: when the key or the secret is missing or empty both on the client
and in the credential file, a trading call fails with `SecretKeyError`, and
it does so independently of the HTTP layer — no request is performed. -/
theorem trading_api_missing_secrets {J : Type} (c : Client) (f : SecretFile)
    (t : ℚ) (kwargs : List (String × PVal))
    (hc : c.px_key = "" ∨ c.px_secret = "")
    (hf : f.key.getD "" = "" ∨ f.secret.getD "" = "") :
    ∃ msg, ∀ postFn : TradingRequest → J,
      trading_api c f t postFn kwargs = Except.error (PxErr.secretKeyError msg) := by
  have hcond : ¬(c.px_key ≠ "" ∧ c.px_secret ≠ "") := by
    rcases hc with h | h <;> simp [h]
  unfold trading_api check_secrets
  rw [if_neg hcond]
  rcases hf with h | h
  · rw [if_pos h]
    exact ⟨_, fun _ => rfl⟩
  · by_cases hk2 : f.key.getD "" = ""
    · rw [if_pos hk2]
      exact ⟨_, fun _ => rfl⟩
    · rw [if_neg hk2, if_pos h]
      exact ⟨_, fun _ => rfl⟩

/-- C4 witness: empty client credentials and an empty credential file. -/
theorem trading_api_missing_secrets_witness :
    ∃ msg, ∀ postFn : TradingRequest → ℕ,
      trading_api ⟨"", "", true⟩ ⟨none, none⟩ 0 postFn [("command", PVal.s "returnBalances")] =
        Except.error (PxErr.secretKeyError msg) :=
  trading_api_missing_secrets ⟨"", "", true⟩ ⟨none, none⟩ 0
    [("command", PVal.s "returnBalances")] (Or.inl rfl) (Or.inl rfl)

/-- C7: a candlestick request with a period outside the allowed set fails
with `PoloniexError` for every underlying HTTP layer, i.e. before any
network call. -/
theorem chart_data_invalid_period {J : Type} (getFn : List (String × PVal) → J)
    (pair : String) (start endT period now : ℤ) (h : period ∉ allowed_periods) :
    chart_data getFn pair start endT period now =
      Except.error (PxErr.poloniexError (toString period ++ " invalid candle period")) := by
  unfold chart_data
  rw [if_pos h]

/-- C7 witness: period 1000 is rejected. -/
theorem chart_data_invalid_period_witness :
    chart_data (fun kwargs => kwargs) "BTC_NXT" 0 0 1000 1700000000 =
      Except.error (PxErr.poloniexError (toString (1000 : ℤ) ++ " invalid candle period")) :=
  chart_data_invalid_period (fun kwargs => kwargs) "BTC_NXT" 0 0 1000 1700000000 (by decide)

/-- C9: a candlestick request with a valid period transmits only `command`,
`currencyPair`, `start` and `end` — the validated period value itself is
never part of the request mapping. -/
theorem chart_data_omits_period (pair : String) (start endT period now : ℤ)
    (h : period ∈ allowed_periods) :
    ∃ m, chart_data (fun kwargs => kwargs) pair start endT period now = Except.ok m
      ∧ m.map Prod.fst = ["command", "currencyPair", "start", "end"]
      ∧ m.lookup "period" = none := by
  unfold chart_data
  rw [if_neg (not_not_intro h)]
  exact ⟨_, rfl, rfl, rfl⟩

/-- C9 witness: the default period 1800. -/
theorem chart_data_omits_period_witness :
    ∃ m, chart_data (fun kwargs => kwargs) "btc_nxt" 5 9 1800 1700000000 = Except.ok m
      ∧ m.map Prod.fst = ["command", "currencyPair", "start", "end"]
      ∧ m.lookup "period" = none :=
  chart_data_omits_period "btc_nxt" 5 9 1800 1700000000 (by decide)

/-- C8: nonces are non-decreasing across calls whose wall-clock readings are
non-decreasing, and every successful trading call carries its clock
reading nonce in the transmitted mapping. -/
theorem trading_api_nonce_monotone {J : Type} (c : Client) (f : SecretFile)
    (t1 t2 : ℚ) (h12 : t1 ≤ t2) (kwargs1 kwargs2 : List (String × PVal))
    (postFn : TradingRequest → J) :
    nonceAt t1 ≤ nonceAt t2
    ∧ (∀ tr req j, trading_api c f t1 postFn kwargs1 = Except.ok (tr, req, j) →
        req.data.lookup "nonce" = some (PVal.i (nonceAt t1)))
    ∧ (∀ tr req j, trading_api c f t2 postFn kwargs2 = Except.ok (tr, req, j) →
        req.data.lookup "nonce" = some (PVal.i (nonceAt t2))) := by
  refine ⟨pyInt_mono (by nlinarith), ?_, ?_⟩ <;>
  · intro tr req j h
    unfold trading_api at h
    cases hcs : check_secrets c f with
    | error e => rw [hcs] at h; exact absurd h (by simp)
    | ok ks =>
      obtain ⟨key, secret⟩ := ks
      rw [hcs] at h
      simp only [Except.ok.injEq, Prod.mk.injEq] at h
      rw [← h.2.1]
      exact setItem_lookup _ "nonce" _

/-- C8 witness: two calls one second apart on a configured client. -/
theorem trading_api_nonce_monotone_witness :
    nonceAt 0 ≤ nonceAt 1
    ∧ (∀ tr req j, trading_api (J := ℕ) ⟨"k", "s", true⟩ ⟨none, none⟩ 0 (fun _ => 0) [] =
          Except.ok (tr, req, j) →
        req.data.lookup "nonce" = some (PVal.i (nonceAt 0)))
    ∧ (∀ tr req j, trading_api (J := ℕ) ⟨"k", "s", true⟩ ⟨none, none⟩ 1 (fun _ => 0) [] =
          Except.ok (tr, req, j) →
        req.data.lookup "nonce" = some (PVal.i (nonceAt 1))) :=
  trading_api_nonce_monotone ⟨"k", "s", true⟩ ⟨none, none⟩ 0 1 (by norm_num) [] []
    (fun _ => 0)

/-- C10: in the trade-history request mapping, a limit above 10000 is sent
as 500, a positive limit at most 10000 is sent unchanged, a non-positive
limit is omitted, and `end` is sent exactly when it is positive and after
`start`. -/
theorem trade_history_limit_and_end (pair : String) (start endT limit : ℤ) :
    (trade_history pair start endT limit).lookup "limit" =
      (if 10000 < limit then some (PVal.i 500)
       else if 0 < limit then some (PVal.i limit) else none)
    ∧ (trade_history pair start endT limit).lookup "end" =
      (if 0 < endT ∧ start < endT then some (PVal.i endT) else none) := by
  constructor <;> (simp only [trade_history]; split_ifs <;> first | rfl | omega)

end Poloniex
